import Mathlib

/-!
Verification of the scriptie API server (`scriptie/server.py`) against its
natural-language specification.

The HTTP handlers of `scriptie/server.py` are embedded shallowly: each
handler becomes a pure Lean function from its (already transport-decoded)
inputs and the application state to a new state and a response.  The
application state (`running_scripts`, `temporary_dirs`, `cleanup_tasks`)
consists of Python dicts and lists; dicts are modelled as association lists
with unique keys together with the operations the source uses (lookup,
`pop`, item assignment).

The companion module `scriptie/scripts.py` (the `Script` / `RunningScript`
classes and the output demultiplexer) is not part of the sources provided;
where a claim depends on it, the relevant definitions are modelled from the
specification and marked `Modelled from the spec:`.
-/

namespace Scriptie

/-- JSON values, as produced by `json.loads` / serialized by
`web.json_response`.  Numbers are modelled as rationals (covering both the
`int` and `float` values the Python JSON decoder produces); booleans are a
separate constructor, mirroring the distinct Python `bool` type. -/
inductive Json where
  | null
  | bool (b : Bool)
  | num (q : Rat)
  | str (s : String)
  | arr (elems : List Json)
  | obj (fields : List (String × Json))

/-- A script descriptor as consumed by `server.py`: the executable's
basename (`script.executable.name`) and its display name (`script.name`). -/
structure Script where
  executable : String
  name : String
deriving DecidableEq, Repr

/-- The per-execution record (`scriptie.scripts.RunningScript`) as read by
the handlers in `server.py`: `rs.script`, `rs.args`, `rs.start_time`,
`rs.end_time`, `rs.progress`, `rs.status`, `rs.return_code`, `rs.output`.
Timestamps are opaque strings (their `isoformat()` rendering). -/
structure RunningScript where
  script : Script
  args : List String
  start_time : String
  output : String
  progress : Rat × Rat
  status : String
  return_code : Option Int
  end_time : Option String
deriving DecidableEq, Repr

/-- Modelled from the spec: construction of a `RunningScript`
(§4.4 "Construction", absent from the provided sources) records the start
time and initializes the slots to their defaults
(`output=""`, `progress=(0,0)`, `status=""`), with the completion slots
unset. -/
def RunningScript.mk0 (script : Script) (args : List String) (now : String) :
    RunningScript :=
  { script := script
    args := args
    start_time := now
    output := ""
    progress := (0, 0)
    status := ""
    return_code := none
    end_time := none }

/-! ### Python dict model

`running_scripts`, `temporary_dirs` and the collected form fields are
Python dicts: insertion-ordered maps with unique keys.  They are modelled
as association lists; `dictGet` is `d.get(k)`, `dictPop` is
`d.pop(k, default)` (dropping the entry), `dictInsert` is `d[k] = v`. -/

def dictGet {α : Type} : List (String × α) → String → Option α
  | [], _ => none
  | (k', v) :: rest, k => if k' = k then some v else dictGet rest k

def dictPop {α : Type} : List (String × α) → String → List (String × α)
  | [], _ => []
  | (k', v) :: rest, k => if k' = k then rest else (k', v) :: dictPop rest k

def dictInsert {α : Type} : List (String × α) → String → α → List (String × α)
  | [], k, v => [(k, v)]
  | (k', v') :: rest, k, v =>
    if k' = k then (k, v) :: rest else (k', v') :: dictInsert rest k v

theorem dictGet_cons_pos {α : Type} {k₀ k : String} (h : k₀ = k) (v₀ : α)
    (rest : List (String × α)) : dictGet ((k₀, v₀) :: rest) k = some v₀ := by
  simp [dictGet, h]

theorem dictGet_cons_neg {α : Type} {k₀ k : String} (h : ¬ k₀ = k) (v₀ : α)
    (rest : List (String × α)) :
    dictGet ((k₀, v₀) :: rest) k = dictGet rest k := by
  simp [dictGet, h]

theorem dictPop_cons_pos {α : Type} {k₀ k : String} (h : k₀ = k) (v₀ : α)
    (rest : List (String × α)) : dictPop ((k₀, v₀) :: rest) k = rest := by
  simp [dictPop, h]

theorem dictPop_cons_neg {α : Type} {k₀ k : String} (h : ¬ k₀ = k) (v₀ : α)
    (rest : List (String × α)) :
    dictPop ((k₀, v₀) :: rest) k = (k₀, v₀) :: dictPop rest k := by
  simp [dictPop, h]

theorem dictInsert_cons_pos {α : Type} {k₀ k : String} (h : k₀ = k) (v₀ v : α)
    (rest : List (String × α)) :
    dictInsert ((k₀, v₀) :: rest) k v = (k, v) :: rest := by
  simp [dictInsert, h]

theorem dictInsert_cons_neg {α : Type} {k₀ k : String} (h : ¬ k₀ = k) (v₀ v : α)
    (rest : List (String × α)) :
    dictInsert ((k₀, v₀) :: rest) k v = (k₀, v₀) :: dictInsert rest k v := by
  simp [dictInsert, h]

theorem dictGet_pop_of_ne {α : Type} (d : List (String × α)) {k k' : String}
    (h : k ≠ k') : dictGet (dictPop d k') k = dictGet d k := by
  induction d with
  | nil => rfl
  | cons p rest ih =>
    obtain ⟨k₀, v₀⟩ := p
    by_cases hk : k₀ = k'
    · subst hk
      rw [dictPop_cons_pos rfl, dictGet_cons_neg (fun hh => h hh.symm)]
    · rw [dictPop_cons_neg hk]
      by_cases hk2 : k₀ = k
      · rw [dictGet_cons_pos hk2, dictGet_cons_pos hk2]
      · rw [dictGet_cons_neg hk2, dictGet_cons_neg hk2]
        exact ih

theorem dictPop_length_lt {α : Type} :
    ∀ {d : List (String × α)} {k : String} {v : α},
      dictGet d k = some v → (dictPop d k).length < d.length := by
  intro d
  induction d with
  | nil => intro k v h; simp [dictGet] at h
  | cons p rest ih =>
    intro k v h
    obtain ⟨k₀, v₀⟩ := p
    by_cases hk : k₀ = k
    · rw [dictPop_cons_pos hk]
      simp
    · rw [dictGet_cons_neg hk] at h
      rw [dictPop_cons_neg hk]
      simpa using Nat.succ_lt_succ (ih h)

theorem dictPop_sublist {α : Type} :
    ∀ (d : List (String × α)) (k : String), List.Sublist (dictPop d k) d := by
  intro d k
  induction d with
  | nil => exact List.Sublist.refl _
  | cons p rest ih =>
    obtain ⟨k₀, v₀⟩ := p
    by_cases hk : k₀ = k
    · rw [dictPop_cons_pos hk]
      exact List.Sublist.cons _ (List.Sublist.refl rest)
    · rw [dictPop_cons_neg hk]
      exact List.Sublist.cons₂ _ ih

theorem dictPop_keys_nodup {α : Type} {d : List (String × α)}
    (hnd : (d.map Prod.fst).Nodup) (k : String) :
    ((dictPop d k).map Prod.fst).Nodup :=
  List.Nodup.sublist (List.Sublist.map Prod.fst (dictPop_sublist d k)) hnd

theorem mem_dictPop_iff {α : Type} :
    ∀ {d : List (String × α)}, (d.map Prod.fst).Nodup →
      ∀ (k : String) (p : String × α), p ∈ dictPop d k ↔ p ∈ d ∧ p.1 ≠ k := by
  intro d
  induction d with
  | nil => intro _ k p; simp [dictPop]
  | cons q rest ih =>
    intro hnd k p
    obtain ⟨k₀, v₀⟩ := q
    rw [List.map_cons, List.nodup_cons] at hnd
    by_cases hk : k₀ = k
    · subst hk
      rw [dictPop_cons_pos rfl]
      constructor
      · intro hp
        refine ⟨List.mem_cons_of_mem _ hp, fun hpk => ?_⟩
        have hm : p.1 ∈ rest.map Prod.fst := List.mem_map_of_mem Prod.fst hp
        rw [hpk] at hm
        exact hnd.1 hm
      · rintro ⟨hp, hpk⟩
        rcases List.mem_cons.mp hp with h1 | h1
        · exact absurd (congrArg Prod.fst h1) hpk
        · exact h1
    · rw [dictPop_cons_neg hk]
      rw [List.mem_cons, List.mem_cons, ih hnd.2 k p]
      constructor
      · rintro (h1 | ⟨h1, h2⟩)
        · refine ⟨Or.inl h1, ?_⟩
          rw [show p.1 = k₀ from congrArg Prod.fst h1]
          exact hk
        · exact ⟨Or.inr h1, h2⟩
      · rintro ⟨h1 | h1, h2⟩
        · exact Or.inl h1
        · exact Or.inr ⟨h1, h2⟩

theorem dictGet_eq_none_of_not_mem {α : Type} :
    ∀ {d : List (String × α)} {k : String},
      k ∉ d.map Prod.fst → dictGet d k = none := by
  intro d
  induction d with
  | nil => intro k _; rfl
  | cons p rest ih =>
    intro k hk
    obtain ⟨k₀, v₀⟩ := p
    simp only [List.map_cons, List.mem_cons] at hk
    push_neg at hk
    rw [dictGet_cons_neg (fun hh => hk.1 hh.symm)]
    exact ih hk.2

theorem dictPop_eq_self_of_get_none {α : Type} :
    ∀ {d : List (String × α)} {k : String},
      dictGet d k = none → dictPop d k = d := by
  intro d
  induction d with
  | nil => intro k _; rfl
  | cons p rest ih =>
    intro k h
    obtain ⟨k₀, v₀⟩ := p
    by_cases hk : k₀ = k
    · rw [dictGet_cons_pos hk] at h
      exact absurd h (by simp)
    · rw [dictGet_cons_neg hk] at h
      rw [dictPop_cons_neg hk, ih h]

theorem mem_keys_dictInsert {α : Type} :
    ∀ (d : List (String × α)) (k : String) (v : α) (x : String),
      x ∈ (dictInsert d k v).map Prod.fst ↔ x ∈ d.map Prod.fst ∨ x = k := by
  intro d k v
  induction d with
  | nil => intro x; simp [dictInsert]
  | cons p rest ih =>
    intro x
    obtain ⟨k₀, v₀⟩ := p
    by_cases hk : k₀ = k
    · rw [dictInsert_cons_pos hk]
      subst hk
      simp only [List.map_cons, List.mem_cons]
      tauto
    · rw [dictInsert_cons_neg hk]
      simp only [List.map_cons, List.mem_cons, ih]
      tauto

theorem dictInsert_keys_nodup {α : Type} :
    ∀ {d : List (String × α)}, (d.map Prod.fst).Nodup →
      ∀ (k : String) (v : α), ((dictInsert d k v).map Prod.fst).Nodup := by
  intro d
  induction d with
  | nil => intro _ k v; simp [dictInsert]
  | cons p rest ih =>
    intro hnd k v
    obtain ⟨k₀, v₀⟩ := p
    rw [List.map_cons, List.nodup_cons] at hnd
    by_cases hk : k₀ = k
    · rw [dictInsert_cons_pos hk]
      rw [List.map_cons, List.nodup_cons]
      exact ⟨hk ▸ hnd.1, hnd.2⟩
    · rw [dictInsert_cons_neg hk]
      rw [List.map_cons, List.nodup_cons]
      refine ⟨?_, ih hnd.2 k v⟩
      rw [mem_keys_dictInsert]
      rintro (h1 | h1)
      · exact hnd.1 h1
      · exact hk h1

/-! ### Argument field names

`run_script` draws form fields named `f"arg{n}"` for `n = 0, 1, 2, …`.
The decimal rendering of `n` is embedded as `natRepr`, a fuel-structural
recursion (so that it evaluates inside the kernel) proven equal to
`Nat.digits 10`, from which injectivity of the field names follows. -/

/-- Little-endian decimal digits of `n`; the first argument is fuel (any
fuel of at least `n` is exact). -/
def decDigitsAux : Nat → Nat → List Nat
  | 0, _ => []
  | fuel + 1, n => if n = 0 then [] else n % 10 :: decDigitsAux fuel (n / 10)

/-- Little-endian decimal digits of `n`. -/
def decDigits (n : Nat) : List Nat := decDigitsAux n n

theorem decDigitsAux_eq_digits :
    ∀ (fuel n : Nat), n ≤ fuel → decDigitsAux fuel n = Nat.digits 10 n := by
  intro fuel
  induction fuel with
  | zero =>
    intro n hn
    have h0 : n = 0 := Nat.le_zero.mp hn
    subst h0
    simp [decDigitsAux]
  | succ fuel ih =>
    intro n hn
    by_cases h0 : n = 0
    · subst h0
      simp [decDigitsAux]
    · rw [decDigitsAux, if_neg h0]
      rw [Nat.digits_def' (by norm_num : (1 : ℕ) < 10) (Nat.pos_of_ne_zero h0)]
      congr 1
      have hdiv : n / 10 < n := Nat.div_lt_self (Nat.pos_of_ne_zero h0) (by norm_num)
      exact ih (n / 10) (by omega)

theorem decDigits_eq_digits (n : Nat) : decDigits n = Nat.digits 10 n :=
  decDigitsAux_eq_digits n n (Nat.le_refl n)

/-- The character for a decimal digit (codepoint `48 + d`). -/
def digitToChar (d : Nat) : Char := Char.ofNat (48 + d)

/-- Inverse of `digitToChar` on decimal digits. -/
def charToDigit (c : Char) : Nat := c.toNat - 48

theorem charToDigit_digitToChar : ∀ d, d < 10 → charToDigit (digitToChar d) = d := by
  decide

theorem map_digitToChar_inj :
    ∀ {l₁ l₂ : List Nat}, (∀ x ∈ l₁, x < 10) → (∀ x ∈ l₂, x < 10) →
      l₁.map digitToChar = l₂.map digitToChar → l₁ = l₂ := by
  intro l₁
  induction l₁ with
  | nil =>
    intro l₂ _ _ h
    exact (List.map_eq_nil_iff.mp h.symm).symm
  | cons a t ih =>
    intro l₂ h₁ h₂ h
    cases l₂ with
    | nil => simp at h
    | cons b t₂ =>
      simp only [List.map_cons, List.cons.injEq] at h
      have ha : a < 10 := h₁ a (List.mem_cons_self a t)
      have hb : b < 10 := h₂ b (List.mem_cons_self b t₂)
      have hab : a = b := by
        have := congrArg charToDigit h.1
        rwa [charToDigit_digitToChar a ha, charToDigit_digitToChar b hb] at this
      have ht : t = t₂ :=
        ih (fun x hx => h₁ x (List.mem_cons_of_mem a hx))
          (fun x hx => h₂ x (List.mem_cons_of_mem b hx)) h.2
      rw [hab, ht]

theorem digits_ten_lt (n : Nat) : ∀ x ∈ Nat.digits 10 n, x < 10 :=
  fun _ hx => Nat.digits_lt_base (by norm_num) hx

/-- The decimal string rendering of a natural number, as produced by the
Python f-string interpolation `f"arg{n}"` for a non-negative `int`. -/
def natRepr (n : Nat) : String :=
  if n = 0 then "0" else String.mk ((decDigits n).reverse.map digitToChar)

theorem string_mk_inj {l₁ l₂ : List Char} (h : String.mk l₁ = String.mk l₂) :
    l₁ = l₂ := by
  injection h

theorem natRepr_ne_zero_repr {b : Nat} (hb : b ≠ 0) : natRepr b ≠ "0" := by
  intro h
  rw [natRepr, if_neg hb] at h
  have h' : (decDigits b).reverse.map digitToChar = ['0'] :=
    string_mk_inj (h.trans (by rfl))
  have hrev : ∃ x, (decDigits b).reverse = [x] ∧ digitToChar x = '0' := by
    cases hc : (decDigits b).reverse with
    | nil => rw [hc] at h'; simp at h'
    | cons x xs =>
      rw [hc] at h'
      simp only [List.map_cons, List.cons.injEq] at h'
      rcases h' with ⟨hx, hxs⟩
      have : xs = [] := List.map_eq_nil_iff.mp hxs
      exact ⟨x, by rw [this], hx⟩
  rcases hrev with ⟨x, hx1, hx2⟩
  have hd : decDigits b = [x] := by
    have := congrArg List.reverse hx1
    simpa using this
  rw [decDigits_eq_digits] at hd
  have hx10 : x < 10 := digits_ten_lt b x (hd ▸ List.mem_cons_self x [])
  have hx0 : x = 0 := by
    have := congrArg charToDigit hx2
    rw [charToDigit_digitToChar x hx10] at this
    simpa [charToDigit] using this
  subst hx0
  have := Nat.ofDigits_digits 10 b
  rw [hd] at this
  simp [Nat.ofDigits] at this
  exact hb this.symm

theorem natRepr_injective : Function.Injective natRepr := by
  intro a b h
  by_cases ha : a = 0
  · by_cases hb : b = 0
    · rw [ha, hb]
    · subst ha
      rw [show natRepr 0 = "0" from rfl] at h
      exact absurd h.symm (natRepr_ne_zero_repr hb)
  · by_cases hb : b = 0
    · subst hb
      rw [show natRepr 0 = "0" from rfl] at h
      exact absurd h (natRepr_ne_zero_repr ha)
    · rw [natRepr, if_neg ha, natRepr, if_neg hb] at h
      have hmaps := string_mk_inj h
      have hrev :
          (decDigits a).reverse = (decDigits b).reverse := by
        refine map_digitToChar_inj ?_ ?_ hmaps
        · intro x hx
          rw [decDigits_eq_digits] at hx
          exact digits_ten_lt a x (List.mem_reverse.mp hx)
        · intro x hx
          rw [decDigits_eq_digits] at hx
          exact digits_ten_lt b x (List.mem_reverse.mp hx)
      have hd : Nat.digits 10 a = Nat.digits 10 b := by
        rw [← decDigits_eq_digits, ← decDigits_eq_digits]
        exact List.reverse_injective hrev
      exact Nat.digits.injective 10 hd

theorem string_append_left_cancel {s t u : String} (h : s ++ t = s ++ u) :
    t = u := by
  cases s with
  | mk a =>
    cases t with
    | mk c =>
      cases u with
      | mk e =>
        have h2 : a ++ c = a ++ e := by
          have := congrArg String.data h
          simpa using this
        have h3 : c = e := List.append_cancel_left h2
        rw [h3]

/-- The form-field name for positional argument `n`: Python `f"arg{n}"`. -/
def argName (n : Nat) : String := "arg" ++ natRepr n

theorem argName_injective : Function.Injective argName := by
  intro a b h
  exact natRepr_injective (string_append_left_cancel h)

/-! ### Application state and `run_script` (POST /scripts/{script}) -/

/-- HTTP error responses raised by the handlers
(`web.HTTPNotFound`, `web.HTTPBadRequest(text=msg)`). -/
inductive HttpError where
  | notFound
  | badRequest (msg : String)
deriving DecidableEq, Repr

/-- One entry of the `cleanup_tasks` list: the deferred cleanup task
created by `run_script` for one execution, with its cancellation flag
(`asyncio.Task.cancel`). -/
structure CleanupTask where
  rs_id : String
  cancelled : Bool := false
deriving DecidableEq, Repr

/-- The aiohttp application state set up by `make_app`, together with the
scratch directories currently existing on disk (`existing_dirs`; a
`TemporaryDirectory` is in it from creation until its `cleanup()`). -/
structure ServerState where
  running_scripts : List (String × RunningScript)
  temporary_dirs : List (String × List String)
  cleanup_tasks : List CleanupTask
  existing_dirs : List String
deriving DecidableEq, Repr

/-- `{script.executable.name: script for script in enumerate_scripts(...)}
.get(name)`: a dict comprehension keyed by basename (later entries
override earlier ones), then lookup. -/
def findScript (scripts : List Script) (name : String) : Option Script :=
  dictGet (scripts.foldl (fun d s => dictInsert d s.executable s) []) name

/-- One part of a multipart/form-data body as decoded by aiohttp:
`name` is the content-disposition name (absent parts are rejected),
`filename` distinguishes value parts (`none`) from file uploads. -/
structure FormPart where
  name : Option String
  filename : Option String
  content : String
deriving DecidableEq, Repr

/-- The request body of POST /scripts/{script}, after transport decoding:
a URL-encoded field list, a multipart part list, or any other content type
(whose body the handler ignores). -/
inductive RequestBody where
  | urlencoded (fields : List (String × String))
  | multipart (parts : List FormPart)
  | other
deriving DecidableEq, Repr

/-- Builds the `args_by_name` dict from URL-encoded form data
(`args_by_name.update(await request.post())`): repeated assignment in
field order, later duplicates overriding earlier ones. -/
def dictOfList (l : List (String × String)) : List (String × String) :=
  l.foldl (fun d kv => dictInsert d kv.1 kv.2) []

theorem dictOfList_keys_nodup (l : List (String × String)) :
    ((dictOfList l).map Prod.fst).Nodup := by
  suffices h : ∀ (acc : List (String × String)), (acc.map Prod.fst).Nodup →
      ((l.foldl (fun d kv => dictInsert d kv.1 kv.2) acc).map Prod.fst).Nodup by
    exact h [] (by simp)
  induction l with
  | nil => intro acc hacc; simpa using hacc
  | cons kv rest ih =>
    intro acc hacc
    exact ih (dictInsert acc kv.1 kv.2) (dictInsert_keys_nodup hacc kv.1 kv.2)

/-- The multipart branch of `run_script`: walk the parts in order, reading
value parts into `args_by_name` and materializing file parts into a fresh
scratch directory named `f"{script.executable.name}_..."`, passing the
file's path (directory joined with the part's filename, or `no_name` when
the filename is empty) as the argument value.  `fresh i` supplies the
unique suffix of the `i`-th `TemporaryDirectory`.  A part without a name
raises `bad request` (`none` here); directories created before the failure
are dropped with the request (their finalizers remove them), so they never
reach the application state. -/
def collectMultipart (scriptName : String) (fresh : Nat → String) :
    List FormPart → Nat → List (String × String) → List String →
    Option (List (String × String) × List String)
  | [], _, acc, dirs => some (acc, dirs)
  | part :: rest, i, acc, dirs =>
    match part.name with
    | none => none
    | some nm =>
      match part.filename with
      | none => collectMultipart scriptName fresh rest i
          (dictInsert acc nm part.content) dirs
      | some filename =>
        let dir := scriptName ++ "_" ++ fresh i
        let fname := if filename = "" then "no_name" else filename
        collectMultipart scriptName fresh rest (i + 1)
          (dictInsert acc nm (dir ++ "/" ++ fname)) (dirs ++ [dir])

/-- The argument-ordering loop of `run_script`
(`for n in count(): ... args.append(args_by_name.pop(name)) ... break`),
with explicit fuel (the loop pops one dict entry per iteration, so any
fuel exceeding the dict size is exact). -/
def collectArgsAux : Nat → Nat → List (String × String) →
    List String × List (String × String)
  | 0, _, d => ([], d)
  | fuel + 1, n, d =>
    match dictGet d (argName n) with
    | none => ([], d)
    | some v =>
      let r := collectArgsAux fuel (n + 1) (dictPop d (argName n))
      (v :: r.1, r.2)

/-- Draw values named `arg0`, `arg1`, … from `args_by_name` in index order
until the first missing index; returns the drawn values and the dict of
unconsumed fields. -/
def collectArgs (n : Nat) (d : List (String × String)) :
    List String × List (String × String) :=
  collectArgsAux (d.length + 1) n d

/-- How long (seconds) a finished execution lingers before cleanup. -/
def CLEANUP_DELAY : Nat := 24 * 60 * 60

/-- POST /scripts/{script}: look the script up by basename (404 when
unknown), collect `args_by_name` from the body, assemble positional
arguments `arg0..`, reject leftover fields with 400, then record a new
`RunningScript` under a fresh id, record its scratch directories, schedule
its deferred cleanup task and answer with the id as the body text.
Error paths leave the application state unchanged. -/
def run_script (scripts : List Script) (scriptName : String)
    (body : RequestBody) (fresh : Nat → String) (rs_id now : String)
    (st : ServerState) : ServerState × Except HttpError String :=
  match findScript scripts scriptName with
  | none => (st, Except.error HttpError.notFound)
  | some script =>
    let collected : Option (List (String × String) × List String) :=
      match body with
      | RequestBody.urlencoded fields => some (dictOfList fields, [])
      | RequestBody.multipart parts =>
        collectMultipart script.executable fresh parts 0 [] []
      | RequestBody.other => some ([], [])
    match collected with
    | none => (st, Except.error (HttpError.badRequest "All form values must be named."))
    | some (args_by_name, temp_dirs) =>
      let r := collectArgs 0 args_by_name
      if r.2.isEmpty then
        ({ running_scripts :=
             st.running_scripts ++ [(rs_id, RunningScript.mk0 script r.1 now)]
           temporary_dirs := st.temporary_dirs ++ [(rs_id, temp_dirs)]
           cleanup_tasks := st.cleanup_tasks ++ [{ rs_id := rs_id }]
           existing_dirs := st.existing_dirs ++ temp_dirs },
         Except.ok rs_id)
      else
        (st, Except.error (HttpError.badRequest
          ("Unexpected fields: " ++ String.intercalate ", " (r.2.map Prod.fst))))

/-! ### Execution snapshots (GET /running/ and GET /running/{id}) -/

/-- The JSON object literal built by `get_running` (lines 246-257) and,
identically, by `get_running_script` (lines 272-281) for one execution. -/
def running_snapshot (rs_id : String) (rs : RunningScript) :
    List (String × Json) :=
  [("id", Json.str rs_id),
   ("script", Json.str rs.script.executable),
   ("args", Json.arr (rs.args.map Json.str)),
   ("start_time", Json.str rs.start_time),
   ("end_time", (rs.end_time.map Json.str).getD Json.null),
   ("progress", Json.arr [Json.num rs.progress.1, Json.num rs.progress.2]),
   ("status", Json.str rs.status),
   ("return_code", (rs.return_code.map fun c => Json.num (c : Rat)).getD Json.null)]

/-- GET /running/: the snapshot array, in mapping (= insertion) order. -/
def get_running (st : ServerState) : Json :=
  Json.arr (st.running_scripts.map fun p => Json.obj (running_snapshot p.1 p.2))

/-- GET /running/{id}: one snapshot, or 404. -/
def get_running_script (st : ServerState) (rs_id : String) :
    Except HttpError Json :=
  match dictGet st.running_scripts rs_id with
  | none => Except.error HttpError.notFound
  | some rs => Except.ok (Json.obj (running_snapshot rs_id rs))

/-! ### Kill, DELETE /running/{id}, and the deferred cleanup task -/

/-- Modelled from the spec: `RunningScript.kill` (§4.4 "Kill semantics",
absent from the provided sources) signals the child's process group and
returns only after the child is reaped, leaving a negative return code
(the negated signal number; SIGTERM = 15) and the end time; calling it
after exit is a no-op. -/
def RunningScript.kill (rs : RunningScript) (now : String) : RunningScript :=
  if rs.return_code.isSome then rs
  else { rs with return_code := some (-15), end_time := some now }

/-- DELETE /running/{id}: 404 for an unknown id; otherwise kill the child,
drop the execution from `running_scripts`, pop its scratch directory list
and clean each directory up.  The `cleanup_tasks` list is not touched. -/
def delete_running_script (st : ServerState) (rs_id : String) (now : String) :
    ServerState × Except HttpError Unit :=
  match dictGet st.running_scripts rs_id with
  | none => (st, Except.error HttpError.notFound)
  | some rs =>
    let _ := rs.kill now
    let dirs := (dictGet st.temporary_dirs rs_id).getD []
    ({ running_scripts := dictPop st.running_scripts rs_id
       temporary_dirs := dictPop st.temporary_dirs rs_id
       cleanup_tasks := st.cleanup_tasks
       existing_dirs := st.existing_dirs.filter (fun dir => !(dirs.contains dir)) },
     Except.ok ())

/-- How one run of the deferred `cleanup()` coroutine of `run_script`
ends: normal completion after the `CLEANUP_DELAY` sleep, or cancellation
at either of its two suspension points (awaiting the return code /
sleeping the delay). -/
inductive CleanupOutcome where
  | completed
  | cancelledAwaitingExit
  | cancelledDuringDelay
deriving DecidableEq, Repr

/-- The deferred cleanup task body (`run_script.cleanup`, lines 225-235):
on normal completion `running_scripts.pop(rs_id, None)` runs; on every
path, including cancellation at either await, the `finally` block pops
`temporary_dirs[rs_id]` and cleans each directory up. -/
def cleanup_run (outcome : CleanupOutcome) (rs_id : String)
    (st : ServerState) : ServerState :=
  let st1 :=
    match outcome with
    | CleanupOutcome.completed =>
      { st with running_scripts := dictPop st.running_scripts rs_id }
    | _ => st
  let dirs := (dictGet st1.temporary_dirs rs_id).getD []
  { st1 with
    temporary_dirs := dictPop st1.temporary_dirs rs_id
    existing_dirs := st1.existing_dirs.filter (fun dir => !(dirs.contains dir)) }

/-! ### Long-poll handlers: /running/{id}/output, /progress, /end_time -/

/-- Result of GET /running/{id}/output: the current buffer when `from` is
absent, otherwise the long-poll `rs.get_output(from_offset)`. -/
inductive OutputResponse where
  | immediate (text : String)
  | longPoll (fromOffset : Int)
deriving DecidableEq, Repr

/-- GET /running/{id}/output.  `fromParam` is the `from` query parameter
after transport decoding: absent, present but not an `int(...)`, or the
parsed integer.  The handler reads state and never writes it. -/
def get_output_handler (rsOpt : Option RunningScript)
    (fromParam : Option (Option Int)) : Except HttpError OutputResponse :=
  match rsOpt with
  | none => Except.error HttpError.notFound
  | some rs =>
    match fromParam with
    | none => Except.ok (OutputResponse.immediate rs.output)
    | some none => Except.error (HttpError.badRequest "from must be an integer")
    | some (some n) => Except.ok (OutputResponse.longPoll n)

/-- Result of GET /running/{id}/progress: the current pair when `since` is
absent, otherwise the long-poll `rs.get_progress(witness)`. -/
inductive ProgressResponse where
  | immediate (p : Rat × Rat)
  | longPoll (witness : Rat × Rat)
deriving DecidableEq, Repr

/-- `isinstance(x, (int, float))` on a JSON-decoded Python value: true for
numbers, and ALSO for booleans, because Python's `bool` is a subtype of
`int`. -/
def isNumberLike : Json → Bool
  | Json.num _ => true
  | Json.bool _ => true
  | _ => false

/-- `float(x)` on a value accepted by `isNumberLike`
(`float(True) = 1.0`, `float(False) = 0.0`). -/
def pyFloatOf : Json → Rat
  | Json.num q => q
  | Json.bool b => if b then 1 else 0
  | _ => 0

/-- GET /running/{id}/progress.  `sinceParam` is the `since` query
parameter after transport decoding: absent, or the result of
`json.loads` (a decode error, or the decoded value).  The handler reads
state and never writes it. -/
def get_progress_handler (rsOpt : Option RunningScript)
    (sinceParam : Option (Except String Json)) :
    Except HttpError ProgressResponse :=
  match rsOpt with
  | none => Except.error HttpError.notFound
  | some rs =>
    match sinceParam with
    | none => Except.ok (ProgressResponse.immediate rs.progress)
    | some (Except.error _) =>
      Except.error (HttpError.badRequest "since must be valid JSON")
    | some (Except.ok j) =>
      match j with
      | Json.arr [a, b] =>
        if isNumberLike a && isNumberLike b then
          Except.ok (ProgressResponse.longPoll (pyFloatOf a, pyFloatOf b))
        else
          Except.error (HttpError.badRequest "since must be a [float, float] array")
      | _ => Except.error (HttpError.badRequest "since must be a [float, float] array")

/-- The body of GET /running/{id}/end_time after `await
rs.get_return_code()` has completed: `assert rs.end_time is not None`,
then respond with the ISO-8601 end time.  An unpopulated end time would
make the assertion fail (`error` here). -/
def get_end_time_body (rs : RunningScript) : Except String String :=
  match rs.end_time with
  | none => Except.error "AssertionError"
  | some t => Except.ok t

/-! ### The line demultiplexer (modelled from the spec)

`scriptie.scripts` is not among the provided sources; the demultiplexer is
modelled from §4.2 of the specification.  Lines are handled as character
lists to keep every operation structurally recursive. -/

/-- Modelled from the spec: strip the trailing newline of a complete
`\n`-terminated line. -/
def stripTrailingNewline (l : List Char) : List Char :=
  if l.getLast? = some '\n' then l.dropLast else l

/-- Modelled from the spec: split a character list at the first `:`,
returning the parts before and after it, or nothing when there is no `:`
(such a telemetry line parses to nothing and is discarded). -/
def splitFirstColon : List Char → Option (List Char × List Char)
  | [] => none
  | c :: cs =>
    if c = ':' then some ([], cs)
    else (splitFirstColon cs).map (fun p => (c :: p.1, p.2))

/-- Whitespace trim on both ends (Python `str.strip()`). -/
def trimChars (l : List Char) : List Char :=
  ((l.dropWhile Char.isWhitespace).reverse.dropWhile Char.isWhitespace).reverse

/-- Numeric value of a digit run. -/
def digitsVal (l : List Char) : Nat :=
  l.foldl (fun acc c => acc * 10 + (c.toNat - 48)) 0

/-- Modelled from the spec: parse an unsigned finite decimal
(`"12"`, `"0.5"`, `"5."`, `".5"`); exponent forms are not modelled (no
claim concerns them). -/
def parseUnsignedDecimal (l : List Char) : Option Rat :=
  let ip := l.takeWhile (fun c => c != '.')
  let rest := l.drop ip.length
  match rest with
  | [] =>
    if ip.all Char.isDigit && !ip.isEmpty then some ((digitsVal ip : Rat))
    else none
  | _ :: fp =>
    if ip.all Char.isDigit && fp.all Char.isDigit &&
        (!ip.isEmpty || !fp.isEmpty) && fp.all (fun c => c != '.') then
      some ((digitsVal ip : Rat) + (digitsVal fp : Rat) / ((10 : Rat) ^ fp.length))
    else none

/-- Modelled from the spec: a finite real with optional sign. -/
def parseFiniteReal (l : List Char) : Option Rat :=
  match trimChars l with
  | '-' :: rest => (parseUnsignedDecimal rest).map (fun q => -q)
  | '+' :: rest => parseUnsignedDecimal rest
  | l' => parseUnsignedDecimal l'

/-- Modelled from the spec: a progress value is
`<numerator>/<denominator>` (two finite reals, surrounding whitespace
tolerated) or a single finite real `f`, read as `(f, 1)`. -/
def parseProgress (l : List Char) : Option (Rat × Rat) :=
  let np := l.takeWhile (fun c => c != '/')
  let rest := l.drop np.length
  match rest with
  | [] => (parseFiniteReal l).map (fun f => (f, 1))
  | _ :: dp =>
    match parseFiniteReal np, parseFiniteReal dp with
    | some n, some d => some (n, d)
    | _, _ => none

/-- Modelled from the spec: classification of one complete line by the
demultiplexer (§4.2).  A line that, after stripping the trailing newline
and leading whitespace, begins with `##` is consumed as telemetry: the
remainder is split on the first `:`, key and value are trimmed, `status`
and `progress` update their slots, anything else (unrecognized keys,
unparseable values, a missing `:`) is silently discarded.  Any other line
is appended, terminator included, to the output buffer. -/
def handle_line (line : String) (rs : RunningScript) : RunningScript :=
  let stripped := (stripTrailingNewline line.data).dropWhile Char.isWhitespace
  if List.isPrefixOf ['#', '#'] stripped then
    match splitFirstColon (stripped.drop 2) with
    | none => rs
    | some (k, v) =>
      let key := trimChars k
      let val := trimChars v
      if key = "status".data then { rs with status := String.mk val }
      else if key = "progress".data then
        match parseProgress val with
        | some p => { rs with progress := p }
        | none => rs
      else rs
  else { rs with output := rs.output ++ line }

/-! ### Lifecycle of a running execution (modelled from the spec) -/

/-- Modelled from the spec: the single-writer publication steps on a
`RunningScript` (§4.4, §4.3).  While the child has not exited the
demultiplexer may handle lines (telemetry or passthrough) and flush
incomplete trailing bytes at EOF; the exit publication sets `return_code`
and `end_time` together, exactly once; `kill` is possible at any time and
is a no-op after exit. -/
inductive RSStep : RunningScript → RunningScript → Prop where
  | line (rs : RunningScript) (l : String) (h : rs.return_code = none) :
      RSStep rs (handle_line l rs)
  | flush (rs : RunningScript) (chunk : String) (h : rs.return_code = none) :
      RSStep rs { rs with output := rs.output ++ chunk }
  | exit (rs : RunningScript) (rc : Int) (t : String)
      (h : rs.return_code = none) :
      RSStep rs { rs with return_code := some rc, end_time := some t }
  | killStep (rs : RunningScript) (t : String) :
      RSStep rs (rs.kill t)

theorem handle_line_preserves_completion (line : String) (rs : RunningScript) :
    (handle_line line rs).return_code = rs.return_code ∧
    (handle_line line rs).end_time = rs.end_time := by
  unfold handle_line
  dsimp only
  constructor <;> (repeat' split) <;> simp

theorem reachable_return_code_iff_end_time (script : Script)
    (args : List String) (now : String) {rs : RunningScript}
    (h : Relation.ReflTransGen RSStep (RunningScript.mk0 script args now) rs) :
    (rs.return_code.isSome ↔ rs.end_time.isSome) := by
  induction h with
  | refl => simp [RunningScript.mk0]
  | tail _ step ih =>
    cases step with
    | line l h =>
      rw [(handle_line_preserves_completion l _).1,
        (handle_line_preserves_completion l _).2]
      exact ih
    | flush chunk h => simpa using ih
    | exit rc t h => simp
    | killStep t =>
      unfold RunningScript.kill
      split
      · exact ih
      · simp

/-! ### The /running/ws WebSocket endpoint (modelled from the spec)

No WebSocket route appears in the provided `server.py` (`make_app`
registers only the table above); the endpoint is exercised by
`tests/test_server.py` and specified in §6, from which this model is
built. -/

/-- A decoded client message: `id`, optional `type` (absent for a
cancellation message), optional `rs_id`, and the optional
command-specific field (`after` / `since`). -/
structure WsRequest where
  reqId : String
  cmdType : Option String
  rs_id : Option String
  arg : Option Json

/-- A server message: `{id, value}` or `{id, error}`. -/
inductive WsReply where
  | value (id : String) (v : Json)
  | error (id : String) (msg : String)

/-- The command set mirroring the HTTP long-poll handlers. -/
def wsSupported : List String :=
  ["get_output", "get_progress", "get_status", "get_return_code", "get_end_time"]

/-- Code-side shape check of a `since` progress witness: a 2-element JSON
array whose elements pass `isinstance(x, (int, float))` — numbers or
booleans. -/
def isJsonProgressPair : Json → Bool
  | Json.arr [a, b] => isNumberLike a && isNumberLike b
  | _ => false

/-- Modelled from the spec: well-formedness of a command's optional
argument (`get_output` takes an integer byte offset, `get_progress` a
progress witness, `get_status` a string witness; the two one-shot
commands take none). -/
def wsValidArg : String → Option Json → Bool
  | "get_output", a =>
    match a with
    | none => true
    | some (Json.num q) => q.den == 1
    | some _ => false
  | "get_progress", a =>
    match a with
    | none => true
    | some j => isJsonProgressPair j
  | "get_status", a =>
    match a with
    | none => true
    | some (Json.str _) => true
    | some _ => false
  | "get_return_code", a => a.isNone
  | "get_end_time", a => a.isNone
  | _, _ => false

/-- The connection state of one /running/ws client: the ids of in-flight
(accepted, unanswered, uncancelled) commands. -/
structure WsConn where
  pending : List String

/-- Modelled from the spec: receipt of one client message (§6).  A
message without `type` cancels the in-flight command of that id and is
never answered.  A typed message is answered immediately with an `error`
reply when the command type is unknown, the `rs_id` is missing or
unknown, or the argument is malformed; otherwise the command starts
long-polling and is in-flight until completion. -/
def ws_receive (running : List (String × RunningScript)) (conn : WsConn)
    (req : WsRequest) : WsConn × Option WsReply :=
  match req.cmdType with
  | none =>
    ({ pending := conn.pending.filter (fun i => i != req.reqId) }, none)
  | some cmd =>
    if !(wsSupported.contains cmd) then
      (conn, some (WsReply.error req.reqId ("Unknown command type: " ++ cmd)))
    else
      match req.rs_id with
      | none => (conn, some (WsReply.error req.reqId "Missing rs_id"))
      | some rid =>
        match dictGet running rid with
        | none =>
          (conn, some (WsReply.error req.reqId ("Unknown RunningScript ID: " ++ rid)))
        | some _ =>
          if wsValidArg cmd req.arg then
            ({ pending := conn.pending ++ [req.reqId] }, none)
          else (conn, some (WsReply.error req.reqId "Malformed argument"))

/-- Modelled from the spec: completion of the long-poll of command `cid`
with result `v`.  If the command is still in-flight a `{id, value}` reply
is sent; if it was cancelled the reply is suppressed. -/
def ws_complete (conn : WsConn) (cid : String) (v : Json) :
    WsConn × Option WsReply :=
  if conn.pending.contains cid then
    ({ pending := conn.pending.filter (fun i => i != cid) },
     some (WsReply.value cid v))
  else (conn, none)

theorem not_mem_filter_bne_self (l : List String) (x : String) :
    x ∉ l.filter (fun i => i != x) := by
  intro h
  have := List.mem_filter.mp h
  simp at this

/-! ### Characterization of the argument-assembly loop -/

theorem collectArgsAux_spec :
    ∀ (fuel n : Nat) (d : List (String × String)),
      d.length < fuel → (d.map Prod.fst).Nodup →
      (∀ i, i < (collectArgsAux fuel n d).1.length →
          dictGet d (argName (n + i)) = (collectArgsAux fuel n d).1[i]?)
      ∧ dictGet d (argName (n + (collectArgsAux fuel n d).1.length)) = none
      ∧ (∀ p : String × String, p ∈ (collectArgsAux fuel n d).2 ↔
          p ∈ d ∧ ∀ i < (collectArgsAux fuel n d).1.length, p.1 ≠ argName (n + i)) := by
  intro fuel
  induction fuel with
  | zero => intro n d hf; exact absurd hf (Nat.not_lt_zero _)
  | succ fuel ih =>
    intro n d hf hnd
    cases hg : dictGet d (argName n) with
    | none =>
      have hres : collectArgsAux (fuel + 1) n d = ([], d) := by
        simp [collectArgsAux, hg]
      refine ⟨?_, ?_, ?_⟩
      · intro i hi
        rw [hres] at hi
        exact absurd hi (by simp)
      · rw [hres]
        simpa using hg
      · intro p
        rw [hres]
        constructor
        · intro hp
          exact ⟨hp, fun i hi => absurd hi (by simp)⟩
        · intro hp
          exact hp.1
    | some v =>
      have hlt : (dictPop d (argName n)).length < fuel := by
        have h1 := dictPop_length_lt hg
        omega
      have hnd' := dictPop_keys_nodup hnd (argName n)
      obtain ⟨ihA, ihB, ihC⟩ := ih (n + 1) (dictPop d (argName n)) hlt hnd'
      have hres : collectArgsAux (fuel + 1) n d =
          (v :: (collectArgsAux fuel (n + 1) (dictPop d (argName n))).1,
           (collectArgsAux fuel (n + 1) (dictPop d (argName n))).2) := by
        simp [collectArgsAux, hg]
      refine ⟨?_, ?_, ?_⟩
      · intro i hi
        rw [hres] at hi ⊢
        dsimp only at hi ⊢
        cases i with
        | zero =>
          simpa using hg
        | succ j =>
          have hj : j < (collectArgsAux fuel (n + 1) (dictPop d (argName n))).1.length := by
            simpa using hi
          have hstep := ihA j hj
          have hne : argName (n + (j + 1)) ≠ argName n := by
            intro hEq
            have := argName_injective hEq
            omega
          have htrans := dictGet_pop_of_ne d hne
          rw [show n + (j + 1) = (n + 1) + j from by omega]
          rw [show n + (j + 1) = (n + 1) + j from by omega] at htrans
          rw [htrans] at hstep
          rw [hstep, List.getElem?_cons_succ]
      · rw [hres]
        dsimp only
        rw [List.length_cons]
        have hne : argName ((n + 1) +
            (collectArgsAux fuel (n + 1) (dictPop d (argName n))).1.length) ≠
            argName n := by
          intro hEq
          have := argName_injective hEq
          omega
        have htrans := dictGet_pop_of_ne d hne
        rw [show n + ((collectArgsAux fuel (n + 1) (dictPop d (argName n))).1.length + 1)
            = (n + 1) + (collectArgsAux fuel (n + 1) (dictPop d (argName n))).1.length
          from by omega]
        rw [← htrans]
        exact ihB
      · intro p
        rw [hres]
        dsimp only
        rw [List.length_cons]
        constructor
        · intro hmem
          obtain ⟨hmem', hrest⟩ := (ihC p).mp hmem
          obtain ⟨hpd, hpne⟩ := (mem_dictPop_iff hnd (argName n) p).mp hmem'
          refine ⟨hpd, ?_⟩
          intro i hi
          cases i with
          | zero => simpa using hpne
          | succ j =>
            have hj : j < (collectArgsAux fuel (n + 1) (dictPop d (argName n))).1.length := by
              omega
            have := hrest j hj
            simpa [show n + (j + 1) = (n + 1) + j from by omega] using this
        · rintro ⟨hpd, hall⟩
          apply (ihC p).mpr
          refine ⟨(mem_dictPop_iff hnd (argName n) p).mpr ⟨hpd, ?_⟩, ?_⟩
          · simpa using hall 0 (by omega)
          · intro j hj
            have := hall (j + 1) (by omega)
            simpa [show n + (j + 1) = (n + 1) + j from by omega] using this

theorem collectArgs_spec (d : List (String × String))
    (hnd : (d.map Prod.fst).Nodup) :
    (∀ i, i < (collectArgs 0 d).1.length →
        dictGet d (argName i) = (collectArgs 0 d).1[i]?)
    ∧ dictGet d (argName (collectArgs 0 d).1.length) = none
    ∧ (∀ p : String × String, p ∈ (collectArgs 0 d).2 ↔
        p ∈ d ∧ ∀ i < (collectArgs 0 d).1.length, p.1 ≠ argName i) := by
  have h := collectArgsAux_spec (d.length + 1) 0 d (by omega) hnd
  simpa [collectArgs] using h

/-! ### Additional dict/list helper lemmas -/

theorem dictGet_pop_self {α : Type} :
    ∀ {d : List (String × α)}, (d.map Prod.fst).Nodup →
      ∀ k, dictGet (dictPop d k) k = none := by
  intro d
  induction d with
  | nil => intro _ k; rfl
  | cons p rest ih =>
    intro hnd k
    obtain ⟨k₀, v₀⟩ := p
    rw [List.map_cons, List.nodup_cons] at hnd
    by_cases hk : k₀ = k
    · rw [dictPop_cons_pos hk]
      exact dictGet_eq_none_of_not_mem (hk ▸ hnd.1)
    · rw [dictPop_cons_neg hk, dictGet_cons_neg hk]
      exact ih hnd.2 k

theorem mem_filter_not_contains {l dirs : List String} {x : String}
    (hx : x ∈ dirs) : x ∉ l.filter (fun dir => !(dirs.contains dir)) := by
  intro h
  have hmf := List.mem_filter.mp h
  have : ¬ x ∈ dirs := by simpa using hmf.2
  exact this hx

theorem filter_not_contains_nil (l : List String) :
    l.filter (fun dir => !(([] : List String).contains dir)) = l := by
  simp

/-! ### Claim theorems -/

/-- Sample objects used by concrete-input theorems below. -/
def fooScript : Script := { executable := "foo.sh", name := "foo" }

def rsSample : RunningScript := RunningScript.mk0 fooScript [] "T0"

/-- C1: every execution snapshot emitted by GET /running/ and GET
/running/{id} consists of exactly the keys `id`, `script`, `args`,
`start_time`, `end_time`, `progress`, `status` and `return_code` — there
is NO `name` key, although the spec (and
`tests/test_server.py::test_enumerate_running`) require a `name` field
holding the script's display name. -/
theorem running_snapshot_has_no_name_field (rs_id : String)
    (rs : RunningScript) :
    (running_snapshot rs_id rs).map Prod.fst =
      ["id", "script", "args", "start_time", "end_time", "progress",
       "status", "return_code"] ∧
    "name" ∉ (running_snapshot rs_id rs).map Prod.fst := by
  refine ⟨rfl, ?_⟩
  rw [show (running_snapshot rs_id rs).map Prod.fst =
      ["id", "script", "args", "start_time", "end_time", "progress",
       "status", "return_code"] from rfl]
  decide

/-- Spec-side predicate, in the claim's words: a 2-element JSON array of
numbers. -/
def isJsonNumberPair : Json → Bool
  | Json.arr [Json.num _, Json.num _] => true
  | _ => false

/-- C7 counterexample: `since=[true,false]` is NOT a 2-element JSON array
of numbers, yet the handler does not respond 400.  Python's `bool` is a
subtype of `int`, so the `isinstance(x, (int, float))` shape check
accepts the decoded booleans and the long-poll proceeds with the witness
pair `(float(True), float(False)) = (1, 0)`. -/
theorem progress_since_bool_pair_not_rejected :
    isJsonNumberPair (Json.arr [Json.bool true, Json.bool false]) = false ∧
    get_progress_handler (some rsSample)
        (some (Except.ok (Json.arr [Json.bool true, Json.bool false])))
      = Except.ok (ProgressResponse.longPoll (1, 0)) := by
  exact ⟨rfl, rfl⟩

/-- Shape-check failure of the `since` validation: any decoded value that
is not a 2-element array of number-or-boolean elements is answered 400. -/
theorem get_progress_shape_bad {rs : RunningScript} {j : Json}
    (hj : isJsonProgressPair j = false) :
    get_progress_handler (some rs) (some (Except.ok j))
      = Except.error (HttpError.badRequest "since must be a [float, float] array") := by
  cases j with
  | arr elems =>
    match elems with
    | [] => rfl
    | [a] => rfl
    | a :: b :: c :: rest => rfl
    | [a, b] =>
      rw [show isJsonProgressPair (Json.arr [a, b])
          = (isNumberLike a && isNumberLike b) from rfl] at hj
      simp [get_progress_handler, hj]
  | null => rfl
  | bool b => rfl
  | num q => rfl
  | str s => rfl
  | obj fields => rfl

/-- C7 (amended): for a known id, GET /running/{id}/progress with `since`
absent immediately answers the current pair; with `since` present it
responds 400 exactly when the decoded value is not a 2-element JSON array
whose elements are numbers or booleans (Python's `bool` is an `int`
subtype, so the code accepts boolean elements too; decode failures are
covered, not being arrays at all), and otherwise long-polls with the
decoded witness pair. -/
theorem get_progress_since_validation (rs : RunningScript) (j : Json)
    (e : String) :
    get_progress_handler (some rs) none
      = Except.ok (ProgressResponse.immediate rs.progress)
    ∧ get_progress_handler (some rs) (some (Except.error e))
      = Except.error (HttpError.badRequest "since must be valid JSON")
    ∧ (isJsonProgressPair j = false →
        get_progress_handler (some rs) (some (Except.ok j))
          = Except.error (HttpError.badRequest "since must be a [float, float] array"))
    ∧ (isJsonProgressPair j = true →
        ∃ w, get_progress_handler (some rs) (some (Except.ok j))
          = Except.ok (ProgressResponse.longPoll w)) := by
  refine ⟨rfl, rfl, ?_, ?_⟩
  · intro hj
    exact get_progress_shape_bad hj
  · intro hj
    cases j with
    | arr elems =>
      match elems with
      | [] => exact absurd hj (by simp [isJsonProgressPair])
      | [a] => exact absurd hj (by simp [isJsonProgressPair])
      | a :: b :: c :: rest => exact absurd hj (by simp [isJsonProgressPair])
      | [a, b] =>
        rw [show isJsonProgressPair (Json.arr [a, b])
            = (isNumberLike a && isNumberLike b) from rfl] at hj
        refine ⟨(pyFloatOf a, pyFloatOf b), ?_⟩
        simp [get_progress_handler, hj]
    | null => exact absurd hj (by simp [isJsonProgressPair])
    | bool b => exact absurd hj (by simp [isJsonProgressPair])
    | num q => exact absurd hj (by simp [isJsonProgressPair])
    | str s => exact absurd hj (by simp [isJsonProgressPair])
    | obj fields => exact absurd hj (by simp [isJsonProgressPair])

theorem get_progress_since_validation_witness :
    ∃ w, get_progress_handler (some rsSample)
        (some (Except.ok (Json.arr [Json.num 1, Json.num 2])))
      = Except.ok (ProgressResponse.longPoll w) :=
  (get_progress_since_validation rsSample
    (Json.arr [Json.num 1, Json.num 2]) "x").2.2.2 rfl

/-- C8: `return_code` and `end_time` are published together, so in any
state reachable in the modelled lifecycle in which the return code is set
(as it is once `await rs.get_return_code()` has completed), `end_time` is
populated: the assertion in the /running/{id}/end_time handler holds and
the handler answers the ISO end time without further blocking. -/
theorem end_time_populated_after_return_code (script : Script)
    (args : List String) (now : String) (rs : RunningScript)
    (hreach : Relation.ReflTransGen RSStep (RunningScript.mk0 script args now) rs)
    (hrc : rs.return_code.isSome) :
    ∃ t, rs.end_time = some t ∧ get_end_time_body rs = Except.ok t := by
  have hinv := reachable_return_code_iff_end_time script args now hreach
  rcases Option.isSome_iff_exists.mp (hinv.mp hrc) with ⟨t, ht⟩
  exact ⟨t, ht, by rw [get_end_time_body, ht]⟩

def rsExited : RunningScript :=
  { RunningScript.mk0 fooScript [] "T0" with
    return_code := some 0, end_time := some "T1" }

theorem end_time_populated_after_return_code_witness :
    ∃ t, rsExited.end_time = some t ∧
      get_end_time_body rsExited = Except.ok t :=
  end_time_populated_after_return_code fooScript [] "T0" rsExited
    (Relation.ReflTransGen.single (RSStep.exit (RunningScript.mk0 fooScript [] "T0") 0 "T1" rfl))
    rfl

/-- C9: a line that, after stripping the trailing newline and leading
whitespace, begins with `##` is consumed as telemetry and never appended
to the output buffer; when its key is neither `status` nor `progress`
(an unrecognized key) it is discarded outright, leaving the whole record
unchanged. -/
theorem telemetry_lines_bypass_output (line : String) (rs : RunningScript)
    (h : List.isPrefixOf ['#', '#']
      ((stripTrailingNewline line.data).dropWhile Char.isWhitespace) = true) :
    (handle_line line rs).output = rs.output ∧
    (∀ k v, splitFirstColon
        (((stripTrailingNewline line.data).dropWhile Char.isWhitespace).drop 2)
          = some (k, v) →
      trimChars k ≠ "status".data → trimChars k ≠ "progress".data →
      handle_line line rs = rs) := by
  constructor
  · unfold handle_line
    dsimp only
    rw [if_pos h]
    repeat' split
    all_goals simp
  · intro k v hsplit hk1 hk2
    unfold handle_line
    dsimp only
    rw [if_pos h, hsplit]
    dsimp only
    rw [if_neg hk1, if_neg hk2]

theorem telemetry_lines_bypass_output_witness :
    (handle_line "## nonsense: 42\n" rsSample).output = rsSample.output ∧
    handle_line "## nonsense: 42\n" rsSample = rsSample := by
  have h := telemetry_lines_bypass_output "## nonsense: 42\n" rsSample (by decide)
  refine ⟨h.1, h.2 (" nonsense".data) (" 42".data) (by decide) (by decide) (by decide)⟩

/-- C10: POST /scripts/{basename} with a known script and a content type
that is neither `application/x-www-form-urlencoded` nor
`multipart/form-data` is not rejected: the body is ignored, the argument
list is empty, and the execution is recorded and started normally, the
response body being the new id. -/
theorem other_content_type_ignored (scripts : List Script)
    (scriptName : String) (script : Script)
    (hfound : findScript scripts scriptName = some script)
    (fresh : Nat → String) (rs_id now : String) (st : ServerState) :
    run_script scripts scriptName RequestBody.other fresh rs_id now st =
      ({ running_scripts :=
           st.running_scripts ++ [(rs_id, RunningScript.mk0 script [] now)]
         temporary_dirs := st.temporary_dirs ++ [(rs_id, [])]
         cleanup_tasks := st.cleanup_tasks ++ [{ rs_id := rs_id }]
         existing_dirs := st.existing_dirs },
       Except.ok rs_id) := by
  unfold run_script
  rw [hfound]
  simp [collectArgs, collectArgsAux, dictGet]

theorem other_content_type_ignored_witness :
    run_script [fooScript] "foo.sh" RequestBody.other (fun _ => "t") "id1" "T0"
        { running_scripts := [], temporary_dirs := [], cleanup_tasks := [],
          existing_dirs := [] } =
      ({ running_scripts := [("id1", RunningScript.mk0 fooScript [] "T0")]
         temporary_dirs := [("id1", [])]
         cleanup_tasks := [{ rs_id := "id1" }]
         existing_dirs := [] },
       Except.ok "id1") := by
  rw [other_content_type_ignored [fooScript] "foo.sh" fooScript rfl
    (fun _ => "t") "id1" "T0" _]
  rfl

/-- C4: client-input errors surface as 400 and leave the server state
untouched.  When the assembled `arg0..` draw leaves named fields
unconsumed, POST /scripts/{basename} answers 400 and no execution is
created or recorded (the whole application state, and in particular
`running_scripts`, is unchanged); a non-integer `from` on /output and an
undecodable or ill-shaped `since` on /progress answer 400 from handlers
that never write state. -/
theorem client_input_errors_preserve_state (scripts : List Script)
    (scriptName : String) (script : Script)
    (hfound : findScript scripts scriptName = some script)
    (fields : List (String × String)) (fresh : Nat → String)
    (rs_id now : String) (st : ServerState)
    (hleft : (collectArgs 0 (dictOfList fields)).2 ≠ []) :
    (run_script scripts scriptName (RequestBody.urlencoded fields)
        fresh rs_id now st).1 = st
    ∧ (run_script scripts scriptName (RequestBody.urlencoded fields)
        fresh rs_id now st).1.running_scripts = st.running_scripts
    ∧ (∃ msg, (run_script scripts scriptName (RequestBody.urlencoded fields)
        fresh rs_id now st).2 = Except.error (HttpError.badRequest msg))
    ∧ (∀ rs, get_output_handler (some rs) (some none)
        = Except.error (HttpError.badRequest "from must be an integer"))
    ∧ (∀ rs e, get_progress_handler (some rs) (some (Except.error e))
        = Except.error (HttpError.badRequest "since must be valid JSON"))
    ∧ (∀ rs j, isJsonProgressPair j = false →
        get_progress_handler (some rs) (some (Except.ok j))
          = Except.error (HttpError.badRequest "since must be a [float, float] array")) := by
  have hrun : run_script scripts scriptName (RequestBody.urlencoded fields)
      fresh rs_id now st
      = (st, Except.error (HttpError.badRequest ("Unexpected fields: "
          ++ String.intercalate ", "
            ((collectArgs 0 (dictOfList fields)).2.map Prod.fst)))) := by
    unfold run_script
    rw [hfound]
    dsimp only
    rw [if_neg (by
      intro hemp
      exact hleft (List.isEmpty_iff.mp hemp))]
  refine ⟨?_, ?_, ?_, ?_, ?_, ?_⟩
  · rw [hrun]
  · rw [hrun]
  · exact ⟨_, by rw [hrun]⟩
  · intro rs; rfl
  · intro rs e; rfl
  · intro rs j hj; exact get_progress_shape_bad hj

theorem client_input_errors_preserve_state_witness :
    (run_script [fooScript] "foo.sh" (RequestBody.urlencoded [("arg1", "x")])
        (fun _ => "t") "id1" "T0"
        { running_scripts := [], temporary_dirs := [], cleanup_tasks := [],
          existing_dirs := [] }).1.running_scripts = [] ∧
    (∃ msg, (run_script [fooScript] "foo.sh"
        (RequestBody.urlencoded [("arg1", "x")]) (fun _ => "t") "id1" "T0"
        { running_scripts := [], temporary_dirs := [], cleanup_tasks := [],
          existing_dirs := [] }).2 = Except.error (HttpError.badRequest msg)) := by
  have h := client_input_errors_preserve_state [fooScript] "foo.sh" fooScript
    rfl [("arg1", "x")] (fun _ => "t") "id1" "T0"
    { running_scripts := [], temporary_dirs := [], cleanup_tasks := [],
      existing_dirs := [] } (by decide)
  exact ⟨h.2.1, h.2.2.1⟩

/-- C6: for a known script, the positional arguments are the values of
`arg0`, `arg1`, … in index order up to the first missing index; the
request is answered 400 exactly when some collected field is left
unconsumed by that draw (its name is no `argN` with `N` below the draw
length), and otherwise the new execution is recorded with exactly the
drawn values, in order, and the response body is the fresh id. -/
theorem run_script_arg_assembly (scripts : List Script) (scriptName : String)
    (script : Script) (hfound : findScript scripts scriptName = some script)
    (fields : List (String × String)) (fresh : Nat → String)
    (rs_id now : String) (st : ServerState) :
    (∀ i, i < (collectArgs 0 (dictOfList fields)).1.length →
        dictGet (dictOfList fields) (argName i)
          = (collectArgs 0 (dictOfList fields)).1[i]?)
    ∧ dictGet (dictOfList fields)
        (argName (collectArgs 0 (dictOfList fields)).1.length) = none
    ∧ ((collectArgs 0 (dictOfList fields)).2 = [] ↔
        ∀ p ∈ dictOfList fields,
          ∃ i, i < (collectArgs 0 (dictOfList fields)).1.length ∧ p.1 = argName i)
    ∧ ((collectArgs 0 (dictOfList fields)).2 ≠ [] →
        ∃ msg, run_script scripts scriptName (RequestBody.urlencoded fields)
            fresh rs_id now st
          = (st, Except.error (HttpError.badRequest msg)))
    ∧ ((collectArgs 0 (dictOfList fields)).2 = [] →
        run_script scripts scriptName (RequestBody.urlencoded fields)
            fresh rs_id now st
          = ({ running_scripts := st.running_scripts ++
                 [(rs_id, RunningScript.mk0 script
                    (collectArgs 0 (dictOfList fields)).1 now)]
               temporary_dirs := st.temporary_dirs ++ [(rs_id, [])]
               cleanup_tasks := st.cleanup_tasks ++ [{ rs_id := rs_id }]
               existing_dirs := st.existing_dirs },
             Except.ok rs_id)) := by
  obtain ⟨specA, specB, specC⟩ :=
    collectArgs_spec (dictOfList fields) (dictOfList_keys_nodup fields)
  refine ⟨specA, specB, ?_, ?_, ?_⟩
  · constructor
    · intro h p hp
      by_contra hno
      push_neg at hno
      have hmem : p ∈ (collectArgs 0 (dictOfList fields)).2 :=
        (specC p).mpr ⟨hp, hno⟩
      rw [h] at hmem
      exact List.not_mem_nil p hmem
    · intro hall
      rw [List.eq_nil_iff_forall_not_mem]
      intro p hpmem
      obtain ⟨hpd, hne⟩ := (specC p).mp hpmem
      obtain ⟨i, hi, heq⟩ := hall p hpd
      exact hne i hi heq
  · intro hleft
    refine ⟨"Unexpected fields: " ++ String.intercalate ", "
      ((collectArgs 0 (dictOfList fields)).2.map Prod.fst), ?_⟩
    unfold run_script
    rw [hfound]
    dsimp only
    rw [if_neg (by
      intro hemp
      exact hleft (List.isEmpty_iff.mp hemp))]
  · intro hnil
    unfold run_script
    rw [hfound]
    dsimp only
    rw [if_pos (by rw [hnil]; rfl)]
    rw [List.append_nil]

theorem run_script_arg_assembly_witness :
    run_script [fooScript] "foo.sh"
        (RequestBody.urlencoded [("arg0", "a"), ("arg1", "b")])
        (fun _ => "t") "id1" "T0"
        { running_scripts := [], temporary_dirs := [], cleanup_tasks := [],
          existing_dirs := [] } =
      ({ running_scripts :=
           [("id1", RunningScript.mk0 fooScript ["a", "b"] "T0")]
         temporary_dirs := [("id1", [])]
         cleanup_tasks := [{ rs_id := "id1" }]
         existing_dirs := [] },
       Except.ok "id1") := by
  have h := (run_script_arg_assembly [fooScript] "foo.sh" fooScript rfl
    [("arg0", "a"), ("arg1", "b")] (fun _ => "t") "id1" "T0"
    { running_scripts := [], temporary_dirs := [], cleanup_tasks := [],
      existing_dirs := [] }).2.2.2.2 (by decide)
  rw [h]
  rfl

def stSample : ServerState :=
  { running_scripts := [("id1", rsSample)]
    temporary_dirs := [("id1", ["foo.sh_t0"])]
    cleanup_tasks := [{ rs_id := "id1" }]
    existing_dirs := ["foo.sh_t0"] }

/-- C3 counterexample: DELETE /running/id1 on a state whose single
execution has one pending, uncancelled deferred cleanup task leaves that
task exactly as it was — pending and uncancelled.  The handler never
touches `cleanup_tasks`, so the cancellation the claim asserts does not
happen (the task keeps running and later performs a harmless no-op). -/
theorem delete_does_not_cancel_cleanup_task :
    (delete_running_script stSample "id1" "T1").1.cleanup_tasks
      = [{ rs_id := "id1", cancelled := false }] ∧
    ¬ (∀ t ∈ (delete_running_script stSample "id1" "T1").1.cleanup_tasks,
        t.rs_id = "id1" → t.cancelled = true) := by
  refine ⟨rfl, ?_⟩
  intro hall
  have hmem : ({ rs_id := "id1", cancelled := false } : CleanupTask)
      ∈ (delete_running_script stSample "id1" "T1").1.cleanup_tasks := by
    rw [show (delete_running_script stSample "id1" "T1").1.cleanup_tasks
        = [{ rs_id := "id1", cancelled := false }] from rfl]
    exact List.mem_cons_self _ _
  have := hall { rs_id := "id1", cancelled := false } hmem rfl
  simp at this

/-- C3 (amended): for a recorded execution id, DELETE /running/{id} kills
the child (idempotently: the kill leaves the return code set and a second
kill is a no-op), removes the execution from the mapping immediately and
deletes its scratch directories; the deferred cleanup task, however, is
NOT cancelled — `cleanup_tasks` is left untouched and the task's later
completion is a no-op on the already-cleaned state.  An id not in the
mapping is answered not-found with the state unchanged. -/
theorem delete_running_script_spec (st : ServerState) (rs_id now : String) :
    (∀ rs, dictGet st.running_scripts rs_id = some rs →
      delete_running_script st rs_id now =
        ({ running_scripts := dictPop st.running_scripts rs_id
           temporary_dirs := dictPop st.temporary_dirs rs_id
           cleanup_tasks := st.cleanup_tasks
           existing_dirs := st.existing_dirs.filter
             (fun dir => !(((dictGet st.temporary_dirs rs_id).getD []).contains dir)) },
         Except.ok ())
      ∧ (∀ dir ∈ (dictGet st.temporary_dirs rs_id).getD [],
          dir ∉ (delete_running_script st rs_id now).1.existing_dirs)
      ∧ (rs.kill now).return_code.isSome
      ∧ (∀ t, (rs.kill now).kill t = rs.kill now)
      ∧ ((st.running_scripts.map Prod.fst).Nodup →
          dictGet (delete_running_script st rs_id now).1.running_scripts rs_id
            = none)
      ∧ ((st.running_scripts.map Prod.fst).Nodup →
          (st.temporary_dirs.map Prod.fst).Nodup →
          cleanup_run CleanupOutcome.completed rs_id
              (delete_running_script st rs_id now).1
            = (delete_running_script st rs_id now).1))
    ∧ (dictGet st.running_scripts rs_id = none →
        delete_running_script st rs_id now
          = (st, Except.error HttpError.notFound)) := by
  constructor
  · intro rs hget
    have hdel : delete_running_script st rs_id now =
        ({ running_scripts := dictPop st.running_scripts rs_id
           temporary_dirs := dictPop st.temporary_dirs rs_id
           cleanup_tasks := st.cleanup_tasks
           existing_dirs := st.existing_dirs.filter
             (fun dir => !(((dictGet st.temporary_dirs rs_id).getD []).contains dir)) },
         Except.ok ()) := by
      unfold delete_running_script
      rw [hget]
    refine ⟨hdel, ?_, ?_, ?_, ?_, ?_⟩
    · intro dir hdir
      rw [hdel]
      exact mem_filter_not_contains hdir
    · unfold RunningScript.kill
      split
      · assumption
      · simp
    · intro t
      by_cases h : rs.return_code.isSome
      · rw [show rs.kill now = rs from by unfold RunningScript.kill; rw [if_pos h]]
        unfold RunningScript.kill
        rw [if_pos h]
      · rw [show rs.kill now
            = { rs with return_code := some (-15), end_time := some now } from by
          unfold RunningScript.kill; rw [if_neg h]]
        unfold RunningScript.kill
        rw [if_pos (by simp)]
    · intro hndr
      rw [hdel]
      exact dictGet_pop_self hndr rs_id
    · intro hndr hndt
      rw [hdel]
      unfold cleanup_run
      dsimp only
      rw [dictGet_pop_self hndt rs_id]
      rw [dictPop_eq_self_of_get_none (dictGet_pop_self hndr rs_id)]
      rw [dictPop_eq_self_of_get_none (dictGet_pop_self hndt rs_id)]
      dsimp only [Option.getD]
      rw [filter_not_contains_nil]
  · intro hget
    unfold delete_running_script
    rw [hget]

theorem delete_running_script_spec_witness :
    delete_running_script stSample "id1" "T1" =
      ({ running_scripts := []
         temporary_dirs := []
         cleanup_tasks := [{ rs_id := "id1" }]
         existing_dirs := [] },
       Except.ok ()) := by
  have h := ((delete_running_script_spec stSample "id1" "T1").1 rsSample rfl).1
  rw [h]
  rfl

/-- C5: the deferred cleanup task awaits the return code, waits
`CLEANUP_DELAY` seconds, then removes the execution from the mapping and
deletes its scratch directories; on EVERY outcome — normal completion or
cancellation at either suspension point (explicit delete only cancels
nothing, but shutdown cancels) — the `finally` block pops the scratch
directory list and deletes the directories. -/
theorem cleanup_task_releases_scratch_dirs (outcome : CleanupOutcome)
    (rs_id : String) (st : ServerState)
    (hndt : (st.temporary_dirs.map Prod.fst).Nodup)
    (hndr : (st.running_scripts.map Prod.fst).Nodup) :
    dictGet (cleanup_run outcome rs_id st).temporary_dirs rs_id = none
    ∧ (∀ dir ∈ (dictGet st.temporary_dirs rs_id).getD [],
        dir ∉ (cleanup_run outcome rs_id st).existing_dirs)
    ∧ (outcome = CleanupOutcome.completed →
        dictGet (cleanup_run outcome rs_id st).running_scripts rs_id = none)
    ∧ (outcome ≠ CleanupOutcome.completed →
        (cleanup_run outcome rs_id st).running_scripts = st.running_scripts) := by
  cases outcome with
  | completed =>
    refine ⟨?_, ?_, ?_, ?_⟩
    · exact dictGet_pop_self hndt rs_id
    · intro dir hdir
      exact mem_filter_not_contains hdir
    · intro _
      exact dictGet_pop_self hndr rs_id
    · intro h
      exact absurd rfl h
  | cancelledAwaitingExit =>
    refine ⟨?_, ?_, ?_, ?_⟩
    · exact dictGet_pop_self hndt rs_id
    · intro dir hdir
      exact mem_filter_not_contains hdir
    · intro h
      exact absurd h (by simp)
    · intro _
      rfl
  | cancelledDuringDelay =>
    refine ⟨?_, ?_, ?_, ?_⟩
    · exact dictGet_pop_self hndt rs_id
    · intro dir hdir
      exact mem_filter_not_contains hdir
    · intro h
      exact absurd h (by simp)
    · intro _
      rfl

theorem cleanup_task_releases_scratch_dirs_witness :
    dictGet (cleanup_run CleanupOutcome.cancelledDuringDelay "id1"
      stSample).temporary_dirs "id1" = none ∧
    ∀ dir ∈ (dictGet stSample.temporary_dirs "id1").getD [],
      dir ∉ (cleanup_run CleanupOutcome.cancelledDuringDelay "id1"
        stSample).existing_dirs := by
  have h := cleanup_task_releases_scratch_dirs
    CleanupOutcome.cancelledDuringDelay "id1" stSample (by decide) (by decide)
  exact ⟨h.1, h.2.1⟩

/-- C2: the /running/ws channel answers every typed request either
immediately with an `{id, error}` reply carrying the request's own id
(unknown command type, missing or unknown `rs_id`, malformed argument) or
— once the accepted long-poll completes — with an `{id, value}` reply;
a message carrying an id and no type cancels the in-flight command of
that id, receives no reply, and suppresses any later reply for it. -/
theorem ws_request_response_contract (running : List (String × RunningScript))
    (conn : WsConn) (req : WsRequest) :
    (∀ cmd, req.cmdType = some cmd →
      (∃ msg, (ws_receive running conn req).2
          = some (WsReply.error req.reqId msg)) ∨
      ((ws_receive running conn req).2 = none ∧
        req.reqId ∈ (ws_receive running conn req).1.pending ∧
        ∀ v, ws_complete (ws_receive running conn req).1 req.reqId v
          = ({ pending := (ws_receive running conn req).1.pending.filter
                (fun i => i != req.reqId) },
             some (WsReply.value req.reqId v))))
    ∧ (req.cmdType = none →
        (ws_receive running conn req).2 = none ∧
        req.reqId ∉ (ws_receive running conn req).1.pending ∧
        ∀ v, ws_complete (ws_receive running conn req).1 req.reqId v
          = ((ws_receive running conn req).1, none)) := by
  constructor
  · intro cmd hcmd
    unfold ws_receive
    rw [hcmd]
    dsimp only
    by_cases hsupp : wsSupported.contains cmd
    · have hsupp2 : cmd ∈ wsSupported := by simpa using hsupp
      rw [if_neg (by simp [hsupp2])]
      cases hrid : req.rs_id with
      | none =>
        left
        exact ⟨"Missing rs_id", rfl⟩
      | some rid =>
        dsimp only
        cases hget : dictGet running rid with
        | none =>
          left
          exact ⟨"Unknown RunningScript ID: " ++ rid, rfl⟩
        | some rs =>
          by_cases harg : wsValidArg cmd req.arg
          · rw [if_pos harg]
            right
            refine ⟨rfl, by simp, ?_⟩
            intro v
            unfold ws_complete
            dsimp only
            rw [if_pos (by simp)]
          · rw [if_neg harg]
            left
            exact ⟨"Malformed argument", rfl⟩
    · have hsupp2 : cmd ∉ wsSupported := by simpa using hsupp
      rw [if_pos (by simp [hsupp2])]
      left
      exact ⟨"Unknown command type: " ++ cmd, rfl⟩
  · intro hnone
    unfold ws_receive
    rw [hnone]
    dsimp only
    refine ⟨rfl, not_mem_filter_bne_self conn.pending req.reqId, ?_⟩
    intro v
    unfold ws_complete
    dsimp only
    rw [if_neg (by simp)]

def wsReqCancel : WsRequest :=
  { reqId := "c1", cmdType := none, rs_id := none, arg := none }

theorem ws_request_response_contract_witness :
    (ws_receive [] { pending := ["c1"] } wsReqCancel).2 = none ∧
    "c1" ∉ (ws_receive [] { pending := ["c1"] } wsReqCancel).1.pending := by
  have h := (ws_request_response_contract [] { pending := ["c1"] }
    wsReqCancel).2 rfl
  exact ⟨h.1, h.2.1⟩

end Scriptie
